import Mathlib

/-!
Shallow embedding of `sync-ml-to-shopify.js` (two source variants in one
file, separated by a document marker).  Prices are modelled as exact
rationals; machine floats are replaced by `ℚ`, and the JavaScript number
parsers (`parseFloat`, `parseInt`) are modelled as partial functions
`String → Option ℚ` / `Option ℤ` where `none` stands for `NaN`.
-/

namespace Sync

/-! ## Data model (spec section 3, shapes used by the code) -/

structure Variant where
  id : Nat
  sku : String
  price : String
deriving Repr, DecidableEq

structure Product where
  id : Nat
  variants : List Variant
deriving Repr, DecidableEq

structure Entry where
  product : Product
  variant : Variant
deriving Repr, DecidableEq

/-! ## JavaScript numeric parsing, modelled exactly for price-like strings

`parseFloat` skips leading whitespace, reads an optional sign, a decimal
significand (digits, optional point, digits) and an optional well-formed
exponent, ignoring any trailing garbage; if no digit is read the result is
`NaN` (here `none`).  `parseInt(s, 10)` reads sign plus leading decimal
digits only.  Scanning (characters to digit counts, all in `Nat`/`Int`) is
separated from valuation (building the exact rational), so that scanning
stays kernel-decidable. -/

def digitVal (c : Char) : Nat := c.toNat - '0'.toNat

def takeDigits : List Char → (List Nat × List Char)
  | [] => ([], [])
  | c :: rest =>
    if c.isDigit then
      let p := takeDigits rest
      (digitVal c :: p.1, p.2)
    else ([], c :: rest)

def digitsToNat (ds : List Nat) : Nat := ds.foldl (fun a d => 10 * a + d) 0

def leadingDigits (cs : List Char) : Option Nat :=
  let p := takeDigits cs
  if p.1.isEmpty then none else some (digitsToNat p.1)

def signedLeadingDigits (cs : List Char) : Option Int :=
  match cs with
  | '-' :: r => (leadingDigits r).map (fun n => -(n : Int))
  | '+' :: r => (leadingDigits r).map (fun n => (n : Int))
  | _ => (leadingDigits cs).map (fun n => (n : Int))

/-- The digits of a parsed decimal significand: sign, integer part,
fractional part with its digit count, and the (well-formed) exponent, `0`
when absent or malformed — `parseFloat` ignores a trailing `e` that is not
followed by digits, and `x e0 = x`. -/
structure FloatSyntax where
  neg : Bool
  intPart : Nat
  fracPart : Nat
  fracLen : Nat
  exp : Int
deriving Repr, DecidableEq

/-- Scan a trailing exponent part (`e`/`E`, optional sign, digits). -/
def scanExp (cs : List Char) : Int :=
  match cs with
  | c :: rest =>
    if c = 'e' ∨ c = 'E' then
      match signedLeadingDigits rest with
      | some e => e
      | none => 0
    else 0
  | [] => 0

/-- Scan the magnitude of a `parseFloat` input: digits, optional point,
digits, optional exponent; `none` when not a single digit is present. -/
def scanMag (cs : List Char) : Option FloatSyntax :=
  let ip := takeDigits cs
  match ip.2 with
  | '.' :: r2 =>
    let fp := takeDigits r2
    if ip.1.isEmpty ∧ fp.1.isEmpty then none
    else some ⟨false, digitsToNat ip.1, digitsToNat fp.1, fp.1.length, scanExp fp.2⟩
  | _ =>
    if ip.1.isEmpty then none else
      some ⟨false, digitsToNat ip.1, 0, 0, scanExp ip.2⟩

/-- Scan phase of `parseFloat`: whitespace, sign, magnitude. -/
def scanFloat (s : String) : Option FloatSyntax :=
  let cs := s.toList.dropWhile Char.isWhitespace
  match cs with
  | '-' :: r => (scanMag r).map (fun f => ⟨true, f.intPart, f.fracPart, f.fracLen, f.exp⟩)
  | '+' :: r => scanMag r
  | _ => scanMag cs

/-- Exact value of a scanned decimal. -/
def floatValue (f : FloatSyntax) : ℚ :=
  let mag : ℚ := ((f.intPart : ℚ) + (f.fracPart : ℚ) / (10 : ℚ) ^ f.fracLen) * (10 : ℚ) ^ f.exp
  if f.neg then -mag else mag

/-- Model of JavaScript `parseFloat` over exact rationals (`none` = `NaN`). -/
def jsParseFloat (s : String) : Option ℚ := (scanFloat s).map floatValue

/-- Model of JavaScript `parseInt(s, 10)` (`none` = `NaN`). -/
def jsParseInt (s : String) : Option Int :=
  signedLeadingDigits (s.toList.dropWhile Char.isWhitespace)

/-- Model of JavaScript `String.prototype.trim`: strip leading and trailing
whitespace. -/
def jsTrim (s : String) : String :=
  String.mk (((s.toList.dropWhile Char.isWhitespace).reverse.dropWhile
    Char.isWhitespace).reverse)

/-- Model of JavaScript `s.split(',')`. -/
def splitOnComma : List Char → List (List Char)
  | [] => [[]]
  | c :: rest =>
    let r := splitOnComma rest
    if c = ',' then [] :: r
    else (c :: r.headD []) :: r.tail

/-! ## ChangeDetector: `needsUpdate` (variant 1, lines 92 to 98) -/

/-- Embedding of `function needsUpdate(shopPrice, mlPrice)` of the first
variant: parse both prices, return `false` when either is `NaN`, otherwise
compare `|m - s| / (s || 1)` against `0.01`.  In JavaScript `s || 1` is `1`
exactly when `s` is `0` (`NaN` is already excluded by the earlier check). -/
def needsUpdate (shopPrice mlPrice : String) : Bool :=
  match jsParseFloat shopPrice, jsParseFloat mlPrice with
  | some s, some m =>
    decide ((1 : ℚ) / 100 < |m - s| / (if s = 0 then 1 else s))
  | _, _ => false

/-- `needsUpdate` as invoked by `processVariantEntry`, where the marketplace
price argument is the numeric JSON payload value itself (for a finite
number `x`, `parseFloat(x)` is `x`). -/
def needsUpdateNum (shopPrice : String) (m : ℚ) : Bool :=
  match jsParseFloat shopPrice with
  | some s => decide ((1 : ℚ) / 100 < |m - s| / (if s = 0 then 1 else s))
  | none => false

/-! ## StorefrontCatalogReader: `shopifyGet`, `listVariantsBatch`,
`findVariantsBySku` (variant 1, lines 22 to 28, 71 to 90, 136 to 155)

The storefront read endpoint is an external collaborator; per spec section 6
it is a paginated listing accepting a page size (always 250 here) and a
since-cursor.  A response is modelled as `ReadResp`; the endpoint itself as
a function of the cursor.  The loops of `listVariantsBatch` and
`findVariantsBySku` are embedded with explicit fuel (the JavaScript loops
terminate because the catalog is finite and the cursor strictly grows). -/

structure ReadResp where
  ok : Bool
  status : Nat
  products : List Product
deriving Repr, DecidableEq

/-- Embedding of `shopifyGet`: a non-ok response throws (here `Except.error`
with the status), an ok response yields the parsed product page. -/
def shopifyGet (r : ReadResp) : Except Nat (List Product) :=
  if r.ok then Except.ok r.products else Except.error r.status

/-- Model of the storefront paginated endpoint backed by a fixed catalog
(spec section 6): the page at cursor `sinceId` holds the first 250 products
whose id exceeds the cursor, in catalog order. -/
def catalogPage (catalog : List Product) (sinceId : Nat) : List Product :=
  (catalog.filter (fun p => sinceId < p.id)).take 250

/-- The catalog-backed endpoint always answers ok (status 200). -/
def catalogOracle (catalog : List Product) (sinceId : Nat) : ReadResp :=
  ⟨true, 200, catalogPage catalog sinceId⟩

/-- The `limit > 0 && results.length >= limit` break condition of
`listVariantsBatch`. -/
def limitReached (limit : Int) (results : List Entry) : Prop :=
  0 < limit ∧ limit ≤ (results.length : Int)

instance (limit : Int) (results : List Entry) : Decidable (limitReached limit results) :=
  inferInstanceAs (Decidable (_ ∧ _))

/-- Inner `for (const v of p.variants)` loop of `listVariantsBatch`: push
one entry per variant, breaking as soon as the limit is reached. -/
def pushVariants (limit : Int) (p : Product) : List Variant → List Entry → List Entry
  | [], results => results
  | v :: vs, results =>
    let results := results ++ [⟨p, v⟩]
    if limitReached limit results then results else pushVariants limit p vs results

/-- Outer `for (const p of products)` loop of `listVariantsBatch`. -/
def pushProducts (limit : Int) : List Product → List Entry → List Entry
  | [], results => results
  | p :: ps, results =>
    let results := pushVariants limit p p.variants results
    if limitReached limit results then results else pushProducts limit ps results

/-- Result of a paginated scan: the accumulated entries, how many page
requests were issued, and — when a page read failed — the propagated
status of the fatal error. -/
structure ScanResult where
  entries : List Entry
  requests : Nat
  fatal : Option Nat
deriving Repr, DecidableEq

/-- The `while ((limit <= 0) || (results.length < limit))` loop of
`listVariantsBatch`: request the page at the cursor, stop on an empty page,
flatten its variants (respecting the limit), advance the cursor to the last
product's id, and stop when the page was short (fewer than 250 products).
A read failure propagates immediately. -/
def lvbGo (fetchPage : Nat → ReadResp) (limit : Int) :
    Nat → Nat → List Entry → Nat → ScanResult
  | 0, _, results, reqs => ⟨results, reqs, none⟩
  | fuel + 1, sinceId, results, reqs =>
    if limit ≤ 0 ∨ (results.length : Int) < limit then
      match shopifyGet (fetchPage sinceId) with
      | Except.error st => ⟨results, reqs + 1, some st⟩
      | Except.ok products =>
        if products.isEmpty then ⟨results, reqs + 1, none⟩
        else
          let results := pushProducts limit products results
          let sinceId := (products.getLastD ⟨0, []⟩).id
          if products.length < 250 then ⟨results, reqs + 1, none⟩
          else lvbGo fetchPage limit fuel sinceId results (reqs + 1)
    else ⟨results, reqs, none⟩

/-- Embedding of `async function listVariantsBatch(limit)` of the first
variant, with explicit fuel bounding the number of loop iterations. -/
def listVariantsBatch (fetchPage : Nat → ReadResp) (limit : Int) (fuel : Nat) : ScanResult :=
  lvbGo fetchPage limit fuel 0 [] 0

/-- The `while (true)` loop of `findVariantsBySku`: collect every variant
whose trimmed SKU equals the target, over all pages. -/
def fvbGo (fetchPage : Nat → ReadResp) (targetSku : String) :
    Nat → Nat → List Entry → (List Entry × Option Nat)
  | 0, _, acc => (acc, none)
  | fuel + 1, sinceId, acc =>
    match shopifyGet (fetchPage sinceId) with
    | Except.error st => (acc, some st)
    | Except.ok products =>
      if products.isEmpty then (acc, none)
      else
        let acc := acc ++ products.flatMap (fun p =>
          (p.variants.filter (fun v => jsTrim v.sku = targetSku)).map (fun v => Entry.mk p v))
        let sinceId := (products.getLastD ⟨0, []⟩).id
        if products.length < 250 then (acc, none)
        else fvbGo fetchPage targetSku fuel sinceId acc

/-- Embedding of `async function findVariantsBySku(targetSku)` of the first
variant, with explicit fuel. -/
def findVariantsBySku (fetchPage : Nat → ReadResp) (targetSku : String) (fuel : Nat) :
    List Entry × Option Nat :=
  fvbGo fetchPage targetSku fuel 0 []

/-- The mocked catalog of the pagination scenario: 260 products with ids
1..260, one variant each, hence 260 variants in pages of 250. -/
def catalog260 : List Product :=
  (List.range 260).map (fun i => ⟨i + 1, [⟨i + 1, "S", "10"⟩]⟩)


/-! ## MarketplacePriceFetcher: `fetchMlItem` (variant 1, lines 46 to 69)

A marketplace response is modelled by its status, its `retry-after` header
(absent = `none`) and the `price` field of its JSON payload (absent/null =
`none`).  `fetchMlItem` classifies the response exactly as the code does:
429, 404, 403 are tagged errors, any other non-2xx status is a generic
error, a 2xx response yields the payload. -/

structure MlResp where
  status : Nat
  retryAfterHeader : Option String
  price : Option ℚ
deriving DecidableEq

/-- The classified outcome of one marketplace fetch.  `rateLimited` carries
`err.retryAfter = parseInt(res.headers.get('retry-after') || 5, 10)`; the
`Option Int` is `none` when that `parseInt` returned `NaN`. -/
inductive MlResult
  | ok (price : Option ℚ)
  | rateLimited (retryAfter : Option Int)
  | notFound
  | forbidden
  | otherError (status : Nat)
deriving DecidableEq

/-- Embedding of `async function fetchMlItem(itemId)`: response
classification.  A missing or empty `retry-after` header falls back to the
number `5` before `parseInt` (JavaScript `null || 5` and `'' || 5` are both
`5`, and `parseInt(5, 10) = 5`). -/
def fetchMlItem (resp : MlResp) : MlResult :=
  if resp.status = 429 then
    MlResult.rateLimited
      (match resp.retryAfterHeader with
       | some h => if h = "" then some 5 else jsParseInt h
       | none => some 5)
  else if resp.status = 404 then MlResult.notFound
  else if resp.status = 403 then MlResult.forbidden
  else if 200 ≤ resp.status ∧ resp.status ≤ 299 then MlResult.ok resp.price
  else MlResult.otherError resp.status

/-- The back-off sleep of the 429 handler:
`const wait = (err.retryAfter || 5) * 1000` — `0 || 5` and `NaN || 5` are
both `5`. -/
def waitMs (retryAfter : Option Int) : Int :=
  (match retryAfter with
   | some r => if r = 0 then 5 else r
   | none => 5) * 1000

/-! ## SyncOrchestrator: `processVariantEntry` (variant 1, lines 100 to 134)

The per-entry pipeline is effect-free in this embedding: the marketplace
response for the entry's SKU and the storefront write response are inputs,
and the observable behaviour — terminal outcome, how many fetches and
write attempts were issued, how long the flow slept — is the output. -/

structure WriteResp where
  ok : Bool
  status : Nat
deriving Repr, DecidableEq

/-- Per-entry external world: the marketplace response the fetch would get,
and the storefront response the write would get. -/
structure EntryEnv where
  ml : MlResp
  write : WriteResp
deriving DecidableEq

/-- Terminal state of one entry (spec section 4.6). -/
inductive EntryOutcome
  | skippedEmptySku
  | noPriceAvailable
  | written (variantId : Nat) (newPrice : ℚ)
  | writeFailed (variantId : Nat) (status : Nat)
  | noChange (variantId : Nat)
  | rateLimitedWaited (ms : Int)
  | notFoundLogged (sku : String)
  | forbiddenLogged (sku : String)
  | otherErrorLogged (sku : String)
deriving DecidableEq

/-- Observable behaviour of `processVariantEntry` on one entry. -/
structure EntryTrace where
  outcome : EntryOutcome
  fetches : Nat
  writesAttempted : Nat
  sleepMs : Int
deriving DecidableEq

/-- Embedding of `async function processVariantEntry(entry)` of the first
variant: skip on empty trimmed SKU (no fetch); otherwise fetch once; on a
present price, write exactly when `needsUpdate` holds (a write failure is
caught and logged); on 429 sleep `(retryAfter || 5) * 1000` ms without
re-fetching; on 404, 403 or any other error, log and finish the entry. -/
def processVariantEntry (env : EntryEnv) (entry : Entry) : EntryTrace :=
  let v := entry.variant
  let sku := jsTrim v.sku
  if sku = "" then ⟨EntryOutcome.skippedEmptySku, 0, 0, 0⟩
  else
    match fetchMlItem env.ml with
    | MlResult.ok none => ⟨EntryOutcome.noPriceAvailable, 1, 0, 0⟩
    | MlResult.ok (some m) =>
      if needsUpdateNum v.price m then
        if env.write.ok then ⟨EntryOutcome.written v.id m, 1, 1, 0⟩
        else ⟨EntryOutcome.writeFailed v.id env.write.status, 1, 1, 0⟩
      else ⟨EntryOutcome.noChange v.id, 1, 0, 0⟩
    | MlResult.rateLimited ra =>
      ⟨EntryOutcome.rateLimitedWaited (waitMs ra), 1, 0, waitMs ra⟩
    | MlResult.notFound => ⟨EntryOutcome.notFoundLogged sku, 1, 0, 0⟩
    | MlResult.forbidden => ⟨EntryOutcome.forbiddenLogged sku, 1, 0, 0⟩
    | MlResult.otherError _ => ⟨EntryOutcome.otherErrorLogged sku, 1, 0, 0⟩

/-- The `for (const entry of batch) await processVariantEntry(entry)` loop:
every entry is processed, in order, none aborts the run. -/
def runEntries (envOf : Entry → EntryEnv) (entries : List Entry) : List EntryTrace :=
  entries.map (fun e => processVariantEntry (envOf e) e)

/-- Outcome of a whole run: the per-entry traces and the process exit
status. -/
structure RunResult where
  traces : List EntryTrace
  exitCode : Nat
deriving DecidableEq

/-- The `FULL_SYNC` path of variant 1's main function (lines 187 to 222):
scan the whole catalog (`limit = 0`); a fatal catalog-read failure is
caught by the outer handler and exits with status 1; otherwise every
scanned entry is processed and the process exits with status 0. -/
def mainFullSync (fetchPage : Nat → ReadResp) (envOf : Entry → EntryEnv) (fuel : Nat) :
    RunResult :=
  let scan := listVariantsBatch fetchPage 0 fuel
  match scan.fatal with
  | some _ => ⟨[], 1⟩
  | none => ⟨runEntries envOf scan.entries, 0⟩

/-! ## WorkingSetSelector (variant 1, lines 157 to 214) -/

/-- The resolved plan of variant 1's main function: full catalog scan
(`limit = 0`), an explicit ordered SKU list, or the bounded default scan. -/
inductive WorkingSetPlan
  | fullScan
  | explicitSkus (skus : List String)
  | boundedScan (limit : Int)
deriving DecidableEq

/-- The `SKU_LIST` secret parser (line 177): split on commas, trim, drop
empties; an absent or empty secret is falsy and yields no list. -/
def parseEnvSkuList (env : Option String) : List String :=
  match env with
  | none => []
  | some s =>
    if s = "" then []
    else (((splitOnComma s.toList).map (fun cs => jsTrim (String.mk cs))).filter
      (fun t => t ≠ ""))

/-- The `TEST_SKU` reordering (lines 181 to 185): when a priority SKU is
configured (non-empty after trimming), remove every occurrence from the
list and prepend it. -/
def resolveSkuList (testSku : String) (skuList : List String) : List String :=
  if testSku ≠ "" then testSku :: skuList.filter (fun s => s ≠ testSku)
  else skuList

/-- The working-set selection of variant 1's main function: file-sourced
list if non-empty, else the `SKU_LIST` secret; then the `TEST_SKU`
reordering; then `FULL_SYNC` wins over a non-empty SKU list, which wins
over the bounded default scan of `BATCH_SIZE` entries. -/
def selectPlan (fileSkus : List String) (envSkuList : Option String)
    (testSku : String) (fullSync : Bool) (batchSize : Int) : WorkingSetPlan :=
  let base := if fileSkus ≠ [] then fileSkus else parseEnvSkuList envSkuList
  let skuList := resolveSkuList testSku base
  if fullSync then WorkingSetPlan.fullScan
  else if skuList ≠ [] then WorkingSetPlan.explicitSkus skuList
  else WorkingSetPlan.boundedScan batchSize

/-- The entry sequence processed by variant 2's main function (lines 386 to
409): first every variant matching `TEST_SKU` (when configured), then the
scanned batch with `TEST_SKU` variants filtered out. -/
def variant2Processed (catalog : List Product) (testSku : String) (fullSync : Bool)
    (batchSize : Int) (fuel : Nat) : List Entry :=
  let found := if testSku ≠ "" then (findVariantsBySku (catalogOracle catalog) testSku fuel).1
    else []
  let limit := if fullSync then 0 else batchSize
  let batch := (listVariantsBatch (catalogOracle catalog) limit fuel).entries
  let filteredBatch := if testSku ≠ "" then
      batch.filter (fun e => jsTrim e.variant.sku ≠ testSku)
    else batch
  found ++ filteredBatch

/-- All catalog entries, in catalog order: one entry per variant of each
product (the spec's "entire catalog" working set). -/
def allEntries (catalog : List Product) : List Entry :=
  catalog.flatMap (fun p => p.variants.map (fun v => Entry.mk p v))

/-! ## Second source variant (after the document marker, lines 224 to 417)

The file holds a second copy of the script.  Its `needsUpdate` (lines 316
to 322), `fetchMlItem` (lines 269 to 292), `listVariantsBatch` (lines 295
to 314) and `findVariantsBySku` (lines 358 to 377) are transcribed here
from the second copy, to be compared with the first variant's
definitions. -/

/-- Embedding of `needsUpdate` of the second variant (lines 316 to 322). -/
def needsUpdate2 (shopPrice mlPrice : String) : Bool :=
  match jsParseFloat shopPrice, jsParseFloat mlPrice with
  | some s, some m =>
    decide ((1 : ℚ) / 100 < |m - s| / (if s = 0 then 1 else s))
  | _, _ => false

/-- Embedding of `fetchMlItem` of the second variant (lines 269 to 292). -/
def fetchMlItem2 (resp : MlResp) : MlResult :=
  if resp.status = 429 then
    MlResult.rateLimited
      (match resp.retryAfterHeader with
       | some h => if h = "" then some 5 else jsParseInt h
       | none => some 5)
  else if resp.status = 404 then MlResult.notFound
  else if resp.status = 403 then MlResult.forbidden
  else if 200 ≤ resp.status ∧ resp.status ≤ 299 then MlResult.ok resp.price
  else MlResult.otherError resp.status

/-- Inner variant loop of the second variant's `listVariantsBatch`. -/
def pushVariants2 (limit : Int) (p : Product) : List Variant → List Entry → List Entry
  | [], results => results
  | v :: vs, results =>
    let results := results ++ [⟨p, v⟩]
    if limitReached limit results then results else pushVariants2 limit p vs results

/-- Outer product loop of the second variant's `listVariantsBatch`. -/
def pushProducts2 (limit : Int) : List Product → List Entry → List Entry
  | [], results => results
  | p :: ps, results =>
    let results := pushVariants2 limit p p.variants results
    if limitReached limit results then results else pushProducts2 limit ps results

/-- Pagination loop of the second variant's `listVariantsBatch` (lines 295
to 314). -/
def lvbGo2 (fetchPage : Nat → ReadResp) (limit : Int) :
    Nat → Nat → List Entry → Nat → ScanResult
  | 0, _, results, reqs => ⟨results, reqs, none⟩
  | fuel + 1, sinceId, results, reqs =>
    if limit ≤ 0 ∨ (results.length : Int) < limit then
      match shopifyGet (fetchPage sinceId) with
      | Except.error st => ⟨results, reqs + 1, some st⟩
      | Except.ok products =>
        if products.isEmpty then ⟨results, reqs + 1, none⟩
        else
          let results := pushProducts2 limit products results
          let sinceId := (products.getLastD ⟨0, []⟩).id
          if products.length < 250 then ⟨results, reqs + 1, none⟩
          else lvbGo2 fetchPage limit fuel sinceId results (reqs + 1)
    else ⟨results, reqs, none⟩

/-- Embedding of `listVariantsBatch` of the second variant. -/
def listVariantsBatch2 (fetchPage : Nat → ReadResp) (limit : Int) (fuel : Nat) : ScanResult :=
  lvbGo2 fetchPage limit fuel 0 [] 0

/-- Pagination loop of the second variant's `findVariantsBySku` (lines 358
to 377). -/
def fvbGo2 (fetchPage : Nat → ReadResp) (targetSku : String) :
    Nat → Nat → List Entry → (List Entry × Option Nat)
  | 0, _, acc => (acc, none)
  | fuel + 1, sinceId, acc =>
    match shopifyGet (fetchPage sinceId) with
    | Except.error st => (acc, some st)
    | Except.ok products =>
      if products.isEmpty then (acc, none)
      else
        let acc := acc ++ products.flatMap (fun p =>
          (p.variants.filter (fun v => jsTrim v.sku = targetSku)).map (fun v => Entry.mk p v))
        let sinceId := (products.getLastD ⟨0, []⟩).id
        if products.length < 250 then (acc, none)
        else fvbGo2 fetchPage targetSku fuel sinceId acc

/-- Embedding of `findVariantsBySku` of the second variant. -/
def findVariantsBySku2 (fetchPage : Nat → ReadResp) (targetSku : String) (fuel : Nat) :
    List Entry × Option Nat :=
  fvbGo2 fetchPage targetSku fuel 0 []

/-! ## Queue-completion trace (variant 1, lines 105 to 117 and 216 to 217)

Every `mlQueue.add` and every `shopifyQueue.add` in `processVariantEntry`
is awaited by the submitting flow, so in this (serialized) embedding each
submitted unit completes before the flow moves on; the final
`await mlQueue.onIdle(); await shopifyQueue.onIdle()` steps are modelled
from the spec's contract for the queues (no outstanding or in-flight work)
and emit the idle events before the run ends. -/

inductive Event
  | fetchStart (sku : String)
  | fetchDone (sku : String)
  | writeStart (variantId : Nat)
  | writeDone (variantId : Nat)
  | mlQueueIdle
  | shopifyQueueIdle
  | runEnd
deriving DecidableEq

/-- The events one entry contributes: a fetch is submitted and completed
unless the SKU is empty, and a write is submitted and completed exactly
when the entry attempts a write. -/
def entryEvents (env : EntryEnv) (entry : Entry) : List Event :=
  let sku := jsTrim entry.variant.sku
  if sku = "" then []
  else
    [Event.fetchStart sku, Event.fetchDone sku] ++
      (if (processVariantEntry env entry).writesAttempted = 0 then []
       else [Event.writeStart entry.variant.id, Event.writeDone entry.variant.id])

/-- The event trace of a whole run: per-entry events in processing order,
then both queues reporting idle, then the end of the run. -/
def runTrace (envOf : Entry → EntryEnv) (entries : List Entry) : List Event :=
  entries.flatMap (fun e => entryEvents (envOf e) e) ++
    [Event.mlQueueIdle, Event.shopifyQueueIdle, Event.runEnd]

/-! ## Evaluation helpers for concrete price strings -/

theorem jsParseFloat_of_scan (s : String) (f : FloatSyntax) (h : scanFloat s = some f) :
    jsParseFloat s = some (floatValue f) := by
  simp [jsParseFloat, h]

theorem jsParseFloat_hundred : jsParseFloat "100.00" = some 100 := by
  rw [jsParseFloat_of_scan "100.00" ⟨false, 100, 0, 2, 0⟩ (by decide)]
  norm_num [floatValue]

theorem jsParseFloat_105 : jsParseFloat "105" = some 105 := by
  rw [jsParseFloat_of_scan "105" ⟨false, 105, 0, 0, 0⟩ (by decide)]
  norm_num [floatValue]

theorem jsParseFloat_half : jsParseFloat "0.50" = some (1 / 2) := by
  rw [jsParseFloat_of_scan "0.50" ⟨false, 0, 50, 2, 0⟩ (by decide)]
  norm_num [floatValue]

theorem jsParseFloat_508 : jsParseFloat "0.508" = some (127 / 250) := by
  rw [jsParseFloat_of_scan "0.508" ⟨false, 0, 508, 3, 0⟩ (by decide)]
  norm_num [floatValue]

theorem needsUpdate_eval (sp mp : String) (s m : ℚ)
    (hs : jsParseFloat sp = some s) (hm : jsParseFloat mp = some m) :
    needsUpdate sp mp =
      decide ((1 : ℚ) / 100 < |m - s| / (if s = 0 then 1 else s)) := by
  simp [needsUpdate, hs, hm]

/-! ## C1 -/

/-- C1 as frozen is false on the code: for the storefront price `"0.50"`
and marketplace price `"0.508"` (both parse, to `1/2` and `127/250`), the
claimed criterion `|m - s| / max s 1 > 0.01` is false (the relative gap
over `max s 1 = 1` is `0.008`), yet `needsUpdate` returns `true`, because
the code divides by `s || 1 = 0.5`, not by `max s 1`. -/
theorem C1_counterexample :
    needsUpdate "0.50" "0.508" = true ∧
    jsParseFloat "0.50" = some (1 / 2) ∧
    jsParseFloat "0.508" = some (127 / 250) ∧
    ¬ ((1 : ℚ) / 100 < |(127 : ℚ) / 250 - 1 / 2| / max (1 / 2 : ℚ) 1) := by
  have habs : |(127 : ℚ) / 250 - 1 / 2| = 1 / 125 := by
    rw [show (127 : ℚ) / 250 - 1 / 2 = 1 / 125 by norm_num]
    rw [abs_of_pos]
    norm_num
  refine ⟨?_, jsParseFloat_half, jsParseFloat_508, ?_⟩
  · rw [needsUpdate_eval "0.50" "0.508" (1 / 2) (127 / 250) jsParseFloat_half jsParseFloat_508]
    rw [decide_eq_true_iff]
    rw [if_neg (by norm_num), habs]
    norm_num
  · rw [habs, max_eq_right (by norm_num : (1 / 2 : ℚ) ≤ 1)]
    norm_num

/-- C1 (amended): for every pair of price strings that both parse as
decimal numbers, `needsUpdate` returns `true` iff
`|m - s| / d > 0.01` where the denominator `d` is the storefront price `s`
itself unless `s` is exactly `0`, in which case it is `1` (not
`max s 1`); if either input fails to parse, it returns `false`. -/
theorem C1_needsUpdate_amended (sp mp : String) :
    (((jsParseFloat sp).isNone ∨ (jsParseFloat mp).isNone) → needsUpdate sp mp = false) ∧
    ∀ s m : ℚ, jsParseFloat sp = some s → jsParseFloat mp = some m →
      (needsUpdate sp mp = true ↔
        (1 : ℚ) / 100 < |m - s| / (if s = 0 then 1 else s)) := by
  constructor
  · intro h
    cases hsp : jsParseFloat sp with
    | none => simp [needsUpdate, hsp]
    | some s =>
      cases hmp : jsParseFloat mp with
      | none => simp [needsUpdate, hsp, hmp]
      | some m => rw [hsp, hmp] at h; simp at h
  · intro s m hs hm
    rw [needsUpdate_eval sp mp s m hs hm]
    exact decide_eq_true_iff

/-- Witness for C1 (amended) at the spec scenario prices `"100.00"` and
`"105"`. -/
theorem C1_needsUpdate_amended_witness :
    needsUpdate "100.00" "105" = true ↔
      (1 : ℚ) / 100 < |(105 : ℚ) - 100| / (if (100 : ℚ) = 0 then 1 else 100) :=
  (C1_needsUpdate_amended "100.00" "105").2 100 105 jsParseFloat_hundred jsParseFloat_105

/-! ## C2 -/

theorem fvbGo_mem (fetchPage : Nat → ReadResp) (t : String) :
    ∀ (fuel sinceId : Nat) (acc : List Entry),
      (∀ e ∈ acc, jsTrim e.variant.sku = t) →
      ∀ e ∈ (fvbGo fetchPage t fuel sinceId acc).1, jsTrim e.variant.sku = t := by
  intro fuel
  induction fuel with
  | zero => intro sinceId acc hacc e he; exact hacc e he
  | succ n ih =>
    intro sinceId acc hacc e he
    rw [fvbGo] at he
    rcases hres : shopifyGet (fetchPage sinceId) with st | products
    all_goals simp only [hres] at he
    · exact hacc e he
    · by_cases hempty : products.isEmpty
      · rw [if_pos hempty] at he
        exact hacc e he
      · rw [if_neg hempty] at he
        have hext : ∀ x ∈ acc ++ products.flatMap (fun p =>
            (p.variants.filter (fun v => jsTrim v.sku = t)).map (fun v => Entry.mk p v)),
            jsTrim x.variant.sku = t := by
          intro x hx
          rcases List.mem_append.mp hx with hx | hx
          · exact hacc x hx
          · rcases List.mem_flatMap.mp hx with ⟨p, -, hx⟩
            rcases List.mem_map.mp hx with ⟨v, hv, rfl⟩
            have := (List.mem_filter.mp hv).2
            simpa using this
        by_cases hshort : products.length < 250
        · rw [if_pos hshort] at he
          exact hext e he
        · rw [if_neg hshort] at he
          exact ih _ _ hext e he

/-- C2: whenever a priority identifier (`TEST_SKU`, non-empty after
trimming) is configured, (i) the resolved SKU working set of variant 1
contains it exactly once, at position 0, whatever the explicit SKU list
was; and (ii) the entry sequence processed by variant 2 splits into the
`TEST_SKU` matches first, followed only by entries whose SKU differs from
it, so at the SKU level the identifier appears first and is never
duplicated later. -/
theorem C2_test_sku_priority (testSku : String) (h : testSku ≠ "") :
    (∀ skuList : List String,
      (resolveSkuList testSku skuList).head? = some testSku ∧
      (resolveSkuList testSku skuList).count testSku = 1) ∧
    (∀ (catalog : List Product) (fullSync : Bool) (batchSize : Int) (fuel : Nat),
      ∃ found rest : List Entry,
        variant2Processed catalog testSku fullSync batchSize fuel = found ++ rest ∧
        (∀ e ∈ found, jsTrim e.variant.sku = testSku) ∧
        (∀ e ∈ rest, jsTrim e.variant.sku ≠ testSku)) := by
  constructor
  · intro skuList
    constructor
    · simp [resolveSkuList, h]
    · rw [resolveSkuList, if_pos h, List.count_cons_self,
        List.count_eq_zero.mpr ?_]
      intro hmem
      have := (List.mem_filter.mp hmem).2
      simp at this
  · intro catalog fullSync batchSize fuel
    refine ⟨(findVariantsBySku (catalogOracle catalog) testSku fuel).1,
      ((listVariantsBatch (catalogOracle catalog) (if fullSync then 0 else batchSize)
        fuel).entries).filter (fun e => jsTrim e.variant.sku ≠ testSku),
      ?_, ?_, ?_⟩
    · simp only [variant2Processed, if_pos h]
    · exact fvbGo_mem (catalogOracle catalog) testSku fuel 0 [] (by simp)
    · intro e he
      have := (List.mem_filter.mp he).2
      simpa using this

/-- Witness for C2 at `TEST_SKU = "A"` and the list `["B", "A", "A"]`. -/
theorem C2_test_sku_priority_witness :
    (resolveSkuList "A" ["B", "A", "A"]).head? = some "A" ∧
    (resolveSkuList "A" ["B", "A", "A"]).count "A" = 1 :=
  (C2_test_sku_priority "A" (by decide)).1 ["B", "A", "A"]

/-! ## C3 -/

theorem pushVariants_length_le (limit : Int) (p : Product) :
    ∀ (vs : List Variant) (results : List Entry),
      (results.length : Int) < limit →
      ((pushVariants limit p vs results).length : Int) ≤ limit := by
  intro vs
  induction vs with
  | nil => intro results h; exact le_of_lt h
  | cons v vs ih =>
    intro results h
    rw [pushVariants]
    split
    · next hl =>
      simp only [List.length_append, List.length_cons, List.length_nil]
      push_cast
      omega
    · next hl =>
      apply ih
      rw [limitReached] at hl
      simp only [List.length_append, List.length_cons, List.length_nil] at hl ⊢
      push_cast at hl ⊢
      omega

theorem pushProducts_length_le (limit : Int) :
    ∀ (ps : List Product) (results : List Entry),
      (results.length : Int) < limit →
      ((pushProducts limit ps results).length : Int) ≤ limit := by
  intro ps
  induction ps with
  | nil => intro results h; exact le_of_lt h
  | cons p ps ih =>
    intro results h
    rw [pushProducts]
    split
    · next hl => exact pushVariants_length_le limit p p.variants results h
    · next hl =>
      apply ih
      rw [limitReached] at hl
      have := pushVariants_length_le limit p p.variants results h
      have hpos : (0 : Int) < limit := lt_of_le_of_lt (Int.ofNat_nonneg _) h
      omega

theorem lvbGo_length_le (fetchPage : Nat → ReadResp) (limit : Int) (hpos : 0 < limit) :
    ∀ (fuel sinceId : Nat) (results : List Entry) (reqs : Nat),
      (results.length : Int) ≤ limit →
      (((lvbGo fetchPage limit fuel sinceId results reqs).entries.length : Int)) ≤ limit := by
  intro fuel
  induction fuel with
  | zero => intro sinceId results reqs h; exact h
  | succ n ih =>
    intro sinceId results reqs h
    rw [lvbGo]
    split
    · next hcond =>
      have hlt : (results.length : Int) < limit := by omega
      rcases hres : shopifyGet (fetchPage sinceId) with st | products
      all_goals simp only [hres]
      · exact h
      · split
        · exact h
        · have hpush := pushProducts_length_le limit products results hlt
          split
          · exact hpush
          · exact ih _ _ _ hpush
    · next hcond => exact h

set_option maxRecDepth 400000 in
/-- C3: over the mocked catalog of 260 one-variant products served in
pages of at most 250 products, `listVariantsBatch` with limit 0 returns
all 260 entries after exactly two page requests, and with limit 100
returns exactly 100 entries after one page request; and in general, for
any endpoint, a positive caller-supplied cap is never exceeded (the loop
stops once the cap is reached; short pages end the loop, as the request
counts of the scenario show). -/
theorem C3_pagination :
    (listVariantsBatch (catalogOracle catalog260) 0 300).entries.length = 260 ∧
    (listVariantsBatch (catalogOracle catalog260) 0 300).requests = 2 ∧
    (listVariantsBatch (catalogOracle catalog260) 100 300).entries.length = 100 ∧
    (listVariantsBatch (catalogOracle catalog260) 100 300).requests = 1 ∧
    ∀ (fetchPage : Nat → ReadResp) (limit : Int) (fuel : Nat), 0 < limit →
      ((listVariantsBatch fetchPage limit fuel).entries.length : Int) ≤ limit := by
  refine ⟨by decide, by decide, by decide, by decide, ?_⟩
  intro fetchPage limit fuel hpos
  exact lvbGo_length_le fetchPage limit hpos fuel 0 [] 0 (by simpa using hpos.le)

set_option maxRecDepth 400000 in
/-- Witness for the general cap bound of C3 at limit 5 over the mocked
catalog. -/
theorem C3_pagination_witness :
    (0 : Int) < 5 ∧
    ((listVariantsBatch (catalogOracle catalog260) 5 300).entries.length : Int) ≤ 5 :=
  ⟨by decide, C3_pagination.2.2.2.2 (catalogOracle catalog260) 5 300 (by decide)⟩

/-! ## C4 -/

theorem pushVariants_nolimit (limit : Int) (hl : limit ≤ 0) (p : Product) :
    ∀ (vs : List Variant) (results : List Entry),
      pushVariants limit p vs results = results ++ vs.map (fun v => Entry.mk p v) := by
  intro vs
  induction vs with
  | nil => intro results; simp [pushVariants]
  | cons v vs ih =>
    intro results
    rw [pushVariants]
    split
    · next hr => exact absurd hr.1 (by omega)
    · rw [ih]
      simp

theorem pushProducts_nolimit (limit : Int) (hl : limit ≤ 0) :
    ∀ (ps : List Product) (results : List Entry),
      pushProducts limit ps results = results ++ allEntries ps := by
  intro ps
  induction ps with
  | nil => intro results; simp [pushProducts, allEntries]
  | cons p ps ih =>
    intro results
    rw [pushProducts]
    split
    · next hr => exact absurd hr.1 (by omega)
    · rw [pushVariants_nolimit limit hl, ih]
      simp [allEntries]

theorem getLastD_mem_product : ∀ (l : List Product) (d : Product), l ≠ [] → l.getLastD d ∈ l := by
  intro l
  induction l with
  | nil => intro d h; exact absurd rfl h
  | cons x xs ih =>
    intro d h
    rw [List.getLastD_cons]
    by_cases hxs : xs = []
    · subst hxs
      simp [List.getLastD]
    · exact List.mem_cons_of_mem x (ih x hxs)

theorem le_getLastD_id :
    ∀ (l : List Product) (d : Product), l.Pairwise (fun p q => p.id < q.id) →
      ∀ a ∈ l, a.id ≤ (l.getLastD d).id := by
  intro l
  induction l with
  | nil => intro d hp a ha; exact absurd ha (List.not_mem_nil a)
  | cons x xs ih =>
    intro d hp a ha
    rw [List.getLastD_cons]
    rcases List.mem_cons.mp ha with rfl | ha
    · by_cases hxs : xs = []
      · subst hxs
        simp [List.getLastD]
      · exact le_of_lt ((List.pairwise_cons.mp hp).1 _ (getLastD_mem_product xs a hxs))
    · exact ih x (List.pairwise_cons.mp hp).2 a ha

theorem filter_gt_getLastD (t dr : List Product) (d : Product) (ht : t ≠ [])
    (hp : (t ++ dr).Pairwise (fun p q => p.id < q.id)) :
    (t ++ dr).filter (fun p => (t.getLastD d).id < p.id) = dr := by
  rw [List.filter_append]
  have h1 : t.filter (fun p => (t.getLastD d).id < p.id) = [] := by
    rw [List.filter_eq_nil_iff]
    intro a ha
    have := le_getLastD_id t d (List.pairwise_append.mp hp).1 a ha
    simp only [decide_eq_true_eq]
    omega
  have h2 : dr.filter (fun p => (t.getLastD d).id < p.id) = dr := by
    rw [List.filter_eq_self]
    intro a ha
    have := (List.pairwise_append.mp hp).2.2 _ (getLastD_mem_product t d ht) a ha
    simp only [decide_eq_true_eq]
    exact this
  rw [h1, h2, List.nil_append]

theorem allEntries_append (l₁ l₂ : List Product) :
    allEntries (l₁ ++ l₂) = allEntries l₁ ++ allEntries l₂ := by
  simp [allEntries]

theorem shopifyGet_catalogOracle (catalog : List Product) (sinceId : Nat) :
    shopifyGet (catalogOracle catalog sinceId) = Except.ok (catalogPage catalog sinceId) := rfl

/-- An unbounded (`limit = 0`) paginated scan over a catalog whose ids
strictly increase visits the whole remaining catalog: with enough fuel,
the accumulated entries are the prior results followed by one entry per
variant of every product past the cursor, in order. -/
theorem lvbGo_full_scan (catalog : List Product)
    (hp : catalog.Pairwise (fun p q => p.id < q.id)) :
    ∀ (fuel sinceId : Nat) (results : List Entry) (reqs : Nat),
      (catalog.filter (fun p => sinceId < p.id)).length < fuel →
      (lvbGo (catalogOracle catalog) 0 fuel sinceId results reqs).entries =
        results ++ allEntries (catalog.filter (fun p => sinceId < p.id)) := by
  intro fuel
  induction fuel with
  | zero => intro sinceId results reqs h; exact absurd h (Nat.not_lt_zero _)
  | succ n ih =>
    intro sinceId results reqs hfuel
    rw [lvbGo, if_pos (Or.inl le_rfl)]
    simp only [shopifyGet_catalogOracle, catalogPage]
    by_cases hnil : catalog.filter (fun p => sinceId < p.id) = []
    · rw [hnil]
      simp [allEntries]
    · have htake : ¬ (((catalog.filter (fun p => sinceId < p.id)).take 250).isEmpty = true) := by
        simp [List.take_eq_nil_iff, hnil]
      rw [if_neg htake]
      by_cases hshort : ((catalog.filter (fun p => sinceId < p.id)).take 250).length < 250
      · have hlen : (catalog.filter (fun p => sinceId < p.id)).length < 250 := by
          rw [List.length_take] at hshort
          omega
        have htakeall : (catalog.filter (fun p => sinceId < p.id)).take 250 =
            catalog.filter (fun p => sinceId < p.id) :=
          List.take_of_length_le (by omega)
        rw [htakeall, if_pos (by omega : (catalog.filter (fun p => sinceId < p.id)).length < 250)]
        simp only [pushProducts_nolimit 0 le_rfl]
      · have hlen250 : 250 ≤ (catalog.filter (fun p => sinceId < p.id)).length := by
          rw [List.length_take] at hshort
          omega
        rw [if_neg hshort]
        have hlastmem : ((catalog.filter (fun p => sinceId < p.id)).take 250).getLastD ⟨0, []⟩ ∈
            catalog.filter (fun p => sinceId < p.id) :=
          List.mem_of_mem_take (getLastD_mem_product _ _ (by
            simp [List.take_eq_nil_iff, hnil]))
        have hsince : sinceId <
            (((catalog.filter (fun p => sinceId < p.id)).take 250).getLastD ⟨0, []⟩).id := by
          have := List.of_mem_filter hlastmem
          simpa using this
        have hsplit : catalog.filter (fun p =>
              ((((catalog.filter (fun q => sinceId < q.id)).take 250).getLastD ⟨0, []⟩).id < p.id)) =
            (catalog.filter (fun p => sinceId < p.id)).drop 250 := by
          have hcongr : catalog.filter (fun p =>
                ((((catalog.filter (fun q => sinceId < q.id)).take 250).getLastD ⟨0, []⟩).id < p.id)) =
              (catalog.filter (fun p => sinceId < p.id)).filter (fun p =>
                ((((catalog.filter (fun q => sinceId < q.id)).take 250).getLastD ⟨0, []⟩).id < p.id)) := by
            rw [List.filter_filter]
            apply List.filter_congr
            intro a _
            by_cases hq :
                ((((catalog.filter (fun q => sinceId < q.id)).take 250).getLastD ⟨0, []⟩).id < a.id)
            · have hs : sinceId < a.id := lt_trans hsince hq
              rw [decide_eq_true hq, decide_eq_true hs]
              rfl
            · rw [decide_eq_false hq]
              rfl
          rw [hcongr]
          have hpair : (((catalog.filter (fun p => sinceId < p.id)).take 250) ++
              ((catalog.filter (fun p => sinceId < p.id)).drop 250)).Pairwise
                (fun p q => p.id < q.id) := by
            rw [List.take_append_drop]
            exact hp.filter _
          have h3 := filter_gt_getLastD ((catalog.filter (fun p => sinceId < p.id)).take 250)
            ((catalog.filter (fun p => sinceId < p.id)).drop 250) ⟨0, []⟩
            (by simp [List.take_eq_nil_iff, hnil]) hpair
          rw [List.take_append_drop] at h3
          exact h3
        rw [ih _ _ _ (by rw [hsplit, List.length_drop]; omega)]
        rw [hsplit, pushProducts_nolimit 0 le_rfl, List.append_assoc, ← allEntries_append,
          List.take_append_drop]

theorem resolveSkuList_ne_nil (testSku : String) (l : List String)
    (h : testSku ≠ "" ∨ l ≠ []) : resolveSkuList testSku l ≠ [] := by
  rw [resolveSkuList]
  split
  · simp
  · next ht =>
    rcases h with h | h
    · exact absurd (not_not.mp ht) h
    · exact h

/-- C4: the working-set selection of variant 1 follows the precedence
full-catalog flag, then file-sourced SKU list, then `SKU_LIST` secret,
then bounded default scan; the file-sourced and secret lists are never
merged (whichever applies is the only list in the plan); with `FULL_SYNC`
true the plan is the unbounded full scan whatever the batch size and SKU
lists are, and that unbounded scan really visits the entire catalog:
over any catalog with strictly increasing positive ids it returns one
entry per variant of every product. -/
theorem C4_precedence (fileSkus : List String) (env : Option String) (testSku : String)
    (batchSize : Int) :
    (∀ fullSync : Bool, fullSync = true →
      selectPlan fileSkus env testSku fullSync batchSize = WorkingSetPlan.fullScan) ∧
    (fileSkus ≠ [] →
      selectPlan fileSkus env testSku false batchSize =
        WorkingSetPlan.explicitSkus (resolveSkuList testSku fileSkus)) ∧
    (fileSkus = [] → parseEnvSkuList env ≠ [] →
      selectPlan fileSkus env testSku false batchSize =
        WorkingSetPlan.explicitSkus (resolveSkuList testSku (parseEnvSkuList env))) ∧
    (fileSkus = [] → parseEnvSkuList env = [] → testSku = "" →
      selectPlan fileSkus env testSku false batchSize = WorkingSetPlan.boundedScan batchSize) ∧
    (∀ catalog : List Product, catalog.Pairwise (fun p q => p.id < q.id) →
      (∀ p ∈ catalog, 0 < p.id) →
      (listVariantsBatch (catalogOracle catalog) 0 (catalog.length + 1)).entries =
        allEntries catalog) := by
  refine ⟨?_, ?_, ?_, ?_, ?_⟩
  · intro fullSync hf
    subst hf
    simp [selectPlan]
  · intro hfile
    have hne := resolveSkuList_ne_nil testSku fileSkus (Or.inr hfile)
    simp [selectPlan, hfile, hne]
  · intro hfile henv
    have hne := resolveSkuList_ne_nil testSku (parseEnvSkuList env) (Or.inr henv)
    subst hfile
    simp [selectPlan, hne]
  · intro hfile henv ht
    subst hfile
    subst ht
    simp [selectPlan, henv, resolveSkuList]
  · intro catalog hps hpos
    have hfe : catalog.filter (fun p => 0 < p.id) = catalog :=
      List.filter_eq_self.mpr (fun a ha => decide_eq_true (hpos a ha))
    rw [listVariantsBatch,
      lvbGo_full_scan catalog hps (catalog.length + 1) 0 [] 0 (by rw [hfe]; omega)]
    rw [hfe, List.nil_append]

/-- Witness for C4: one concrete configuration per precedence branch, and
a two-product catalog for the full-scan clause. -/
theorem C4_precedence_witness :
    selectPlan ["F"] (some "E1,E2") "T" true 200 = WorkingSetPlan.fullScan ∧
    selectPlan ["F"] (some "E1,E2") "T" false 200 =
      WorkingSetPlan.explicitSkus (resolveSkuList "T" ["F"]) ∧
    selectPlan [] (some "E1,E2") "T" false 200 =
      WorkingSetPlan.explicitSkus (resolveSkuList "T" (parseEnvSkuList (some "E1,E2"))) ∧
    selectPlan [] (some "") "" false 200 = WorkingSetPlan.boundedScan 200 ∧
    (listVariantsBatch
      (catalogOracle [⟨1, [⟨1, "A", "1"⟩]⟩, ⟨2, [⟨2, "B", "2"⟩]⟩]) 0 3).entries =
      allEntries [⟨1, [⟨1, "A", "1"⟩]⟩, ⟨2, [⟨2, "B", "2"⟩]⟩] :=
  ⟨(C4_precedence ["F"] (some "E1,E2") "T" 200).1 true rfl,
   (C4_precedence ["F"] (some "E1,E2") "T" 200).2.1 (by decide),
   (C4_precedence [] (some "E1,E2") "T" 200).2.2.1 rfl (by decide),
   (C4_precedence [] (some "") "" 200).2.2.2.1 rfl (by decide) rfl,
   (C4_precedence [] none "" 200).2.2.2.2
     [⟨1, [⟨1, "A", "1"⟩]⟩, ⟨2, [⟨2, "B", "2"⟩]⟩] (by decide) (by decide)⟩

/-! ## C5 -/

theorem jsParseInt_three : jsParseInt "3" = some 3 := by decide

/-- C5: on a marketplace response with status 429 the classified error
carries the parsed `retry-after` duration (in general: whatever integer
the header parses to; a missing header defaults to 5); with
`retry-after: 3` the orchestrator sleeps 3000 ms (at least 3000), issues
exactly one fetch for the entry (no automatic re-fetch), attempts no
write (the entry is not marked updated), and the run proceeds with the
remaining entries. -/
theorem C5_rate_limited (envOf : Entry → EntryEnv) (e : Entry) (rest : List Entry)
    (hsku : jsTrim e.variant.sku ≠ "")
    (hst : (envOf e).ml.status = 429)
    (hhd : (envOf e).ml.retryAfterHeader = some "3") :
    fetchMlItem (envOf e).ml = MlResult.rateLimited (some 3) ∧
    processVariantEntry (envOf e) e = ⟨EntryOutcome.rateLimitedWaited 3000, 1, 0, 3000⟩ ∧
    (3000 : Int) ≤ (processVariantEntry (envOf e) e).sleepMs ∧
    (processVariantEntry (envOf e) e).fetches = 1 ∧
    (processVariantEntry (envOf e) e).writesAttempted = 0 ∧
    (∀ (resp : MlResp) (hd : String) (r : Int), resp.status = 429 →
      resp.retryAfterHeader = some hd → hd ≠ "" → jsParseInt hd = some r →
      fetchMlItem resp = MlResult.rateLimited (some r)) ∧
    (∀ price : Option ℚ, fetchMlItem ⟨429, none, price⟩ = MlResult.rateLimited (some 5)) ∧
    runEntries envOf (e :: rest) =
      processVariantEntry (envOf e) e :: runEntries envOf rest := by
  have hfetch : fetchMlItem (envOf e).ml = MlResult.rateLimited (some 3) := by
    rw [fetchMlItem, hst, hhd]
    norm_num [jsParseInt_three]
    decide
  have hwait : waitMs (some 3) = 3000 := by decide
  have hproc : processVariantEntry (envOf e) e =
      ⟨EntryOutcome.rateLimitedWaited 3000, 1, 0, 3000⟩ := by
    rw [processVariantEntry]
    simp only [if_neg hsku, hfetch, hwait]
  refine ⟨hfetch, hproc, ?_, ?_, ?_, ?_, ?_, ?_⟩
  · rw [hproc]
  · rw [hproc]
  · rw [hproc]
  · intro resp hd r h1 h2 h3 h4
    simp [fetchMlItem, h1, h2, h3, h4]
  · intro price
    rw [fetchMlItem]
    norm_num
  · simp [runEntries]

/-- Witness for C5 at a concrete entry with SKU `"X1"` and a 429 response
carrying `retry-after: 3`. -/
theorem C5_rate_limited_witness :
    fetchMlItem (⟨⟨429, some "3", none⟩, ⟨true, 200⟩⟩ : EntryEnv).ml =
      MlResult.rateLimited (some 3) ∧
    processVariantEntry ⟨⟨429, some "3", none⟩, ⟨true, 200⟩⟩
      ⟨⟨1, [⟨1, "X1", "100.00"⟩]⟩, ⟨1, "X1", "100.00"⟩⟩ =
      ⟨EntryOutcome.rateLimitedWaited 3000, 1, 0, 3000⟩ := by
  have h := C5_rate_limited (fun _ => ⟨⟨429, some "3", none⟩, ⟨true, 200⟩⟩)
    ⟨⟨1, [⟨1, "X1", "100.00"⟩]⟩, ⟨1, "X1", "100.00"⟩⟩ [] (by decide) rfl rfl
  exact ⟨h.1, h.2.1⟩

/-! ## C6 -/

/-- C6: an entry whose variant SKU is empty or whitespace-only after
trimming is skipped untouched: no marketplace fetch, no storefront write,
no sleep. -/
theorem C6_empty_sku (env : EntryEnv) (e : Entry) (h : jsTrim e.variant.sku = "") :
    processVariantEntry env e = ⟨EntryOutcome.skippedEmptySku, 0, 0, 0⟩ := by
  rw [processVariantEntry]
  simp only [h, if_pos]

/-- Witness for C6 at a whitespace-only SKU. -/
theorem C6_empty_sku_witness :
    processVariantEntry ⟨⟨200, none, some 10⟩, ⟨true, 200⟩⟩
      ⟨⟨1, [⟨1, "   ", "100.00"⟩]⟩, ⟨1, "   ", "100.00"⟩⟩ =
      ⟨EntryOutcome.skippedEmptySku, 0, 0, 0⟩ :=
  C6_empty_sku ⟨⟨200, none, some 10⟩, ⟨true, 200⟩⟩
    ⟨⟨1, [⟨1, "   ", "100.00"⟩]⟩, ⟨1, "   ", "100.00"⟩⟩ (by decide)

/-! ## C7 -/

theorem lvbGo_catalogOracle_fatal_none (catalog : List Product) (limit : Int) :
    ∀ (fuel sinceId : Nat) (results : List Entry) (reqs : Nat),
      (lvbGo (catalogOracle catalog) limit fuel sinceId results reqs).fatal = none := by
  intro fuel
  induction fuel with
  | zero => intro sinceId results reqs; rfl
  | succ n ih =>
    intro sinceId results reqs
    rw [lvbGo]
    split
    · simp only [shopifyGet_catalogOracle]
      split
      · rfl
      · split
        · rfl
        · exact ih _ _ _
    · rfl

theorem fetchMlItem_notFound (resp : MlResp) (h : resp.status = 404) :
    fetchMlItem resp = MlResult.notFound := by
  rw [fetchMlItem, h]
  norm_num

theorem fetchMlItem_forbidden (resp : MlResp) (h : resp.status = 403) :
    fetchMlItem resp = MlResult.forbidden := by
  rw [fetchMlItem, h]
  norm_num

theorem fetchMlItem_serverError (resp : MlResp) (h : resp.status = 500) :
    fetchMlItem resp = MlResult.otherError 500 := by
  rw [fetchMlItem, h]
  norm_num

theorem fetchMlItem_success (resp : MlResp) (h : resp.status = 200) :
    fetchMlItem resp = MlResult.ok resp.price := by
  rw [fetchMlItem, h]
  norm_num

/-- C7: marketplace not-found (404), forbidden (403) and any other
non-success fetch status (here 500), as well as a storefront write
failure, end only the affected entry: the entry's trace records the
logged outcome with no further effect, and for every catalog oracle and
any per-entry environment whatsoever the full-sync run still produces a
trace for every scanned entry and exits with status 0. -/
theorem C7_per_entry_isolation :
    (∀ (catalog : List Product) (envOf : Entry → EntryEnv) (fuel : Nat),
      (mainFullSync (catalogOracle catalog) envOf fuel).exitCode = 0 ∧
      (mainFullSync (catalogOracle catalog) envOf fuel).traces.length =
        (listVariantsBatch (catalogOracle catalog) 0 fuel).entries.length) ∧
    (∀ (env : EntryEnv) (e : Entry), jsTrim e.variant.sku ≠ "" →
      (env.ml.status = 404 →
        processVariantEntry env e =
          ⟨EntryOutcome.notFoundLogged (jsTrim e.variant.sku), 1, 0, 0⟩) ∧
      (env.ml.status = 403 →
        processVariantEntry env e =
          ⟨EntryOutcome.forbiddenLogged (jsTrim e.variant.sku), 1, 0, 0⟩) ∧
      (env.ml.status = 500 →
        processVariantEntry env e =
          ⟨EntryOutcome.otherErrorLogged (jsTrim e.variant.sku), 1, 0, 0⟩) ∧
      (∀ m : ℚ, env.ml.status = 200 → env.ml.price = some m →
        needsUpdateNum e.variant.price m = true → env.write.ok = false →
        processVariantEntry env e =
          ⟨EntryOutcome.writeFailed e.variant.id env.write.status, 1, 1, 0⟩)) := by
  constructor
  · intro catalog envOf fuel
    have hf : (listVariantsBatch (catalogOracle catalog) 0 fuel).fatal = none :=
      lvbGo_catalogOracle_fatal_none catalog 0 fuel 0 [] 0
    rw [mainFullSync]
    simp [hf, runEntries]
  · intro env e hsku
    refine ⟨?_, ?_, ?_, ?_⟩
    · intro h
      rw [processVariantEntry]
      simp only [if_neg hsku, fetchMlItem_notFound env.ml h]
    · intro h
      rw [processVariantEntry]
      simp only [if_neg hsku, fetchMlItem_forbidden env.ml h]
    · intro h
      rw [processVariantEntry]
      simp only [if_neg hsku, fetchMlItem_serverError env.ml h]
    · intro m h200 hprice hupd hwok
      have hfetch : fetchMlItem env.ml = MlResult.ok (some m) := by
        rw [fetchMlItem_success env.ml h200, hprice]
      rw [processVariantEntry]
      simp only [if_neg hsku, hfetch, hupd, hwok]
      rfl

/-- Witness for C7 at the spec scenario: marketplace 404 for SKU
`"GHOST"`. -/
theorem C7_per_entry_isolation_witness :
    processVariantEntry ⟨⟨404, none, none⟩, ⟨true, 200⟩⟩
      ⟨⟨3, [⟨7, "GHOST", "100.00"⟩]⟩, ⟨7, "GHOST", "100.00"⟩⟩ =
      ⟨EntryOutcome.notFoundLogged "GHOST", 1, 0, 0⟩ := by
  have h := (C7_per_entry_isolation.2 ⟨⟨404, none, none⟩, ⟨true, 200⟩⟩
    ⟨⟨3, [⟨7, "GHOST", "100.00"⟩]⟩, ⟨7, "GHOST", "100.00"⟩⟩ (by decide)).1 rfl
  rw [show jsTrim "GHOST" = "GHOST" from by decide] at h
  exact h

/-! ## C8 -/

/-- C8: a non-success response from the storefront catalog read endpoint
is fatal: `shopifyGet` turns it into a thrown error carrying the status,
the pagination loop propagates it at once — exactly one request was made
for the failing page, none after it, no retry — and the full-sync run
ends with exit status 1 having processed no entries. -/
theorem C8_fatal_catalog_read (fetchPage : Nat → ReadResp) (fuel : Nat)
    (h0 : (fetchPage 0).ok = false) :
    (∀ r : ReadResp, r.ok = false → shopifyGet r = Except.error r.status) ∧
    listVariantsBatch fetchPage 0 (fuel + 1) = ⟨[], 1, some (fetchPage 0).status⟩ ∧
    ∀ envOf : Entry → EntryEnv, mainFullSync fetchPage envOf (fuel + 1) = ⟨[], 1⟩ := by
  have hget : ∀ r : ReadResp, r.ok = false → shopifyGet r = Except.error r.status := by
    intro r hr
    rw [shopifyGet, if_neg]
    simp [hr]
  have hscan : listVariantsBatch fetchPage 0 (fuel + 1) = ⟨[], 1, some (fetchPage 0).status⟩ := by
    rw [listVariantsBatch, lvbGo, if_pos (Or.inl le_rfl)]
    simp only [hget (fetchPage 0) h0]
  refine ⟨hget, hscan, ?_⟩
  intro envOf
  rw [mainFullSync]
  simp only [hscan]

/-- Witness for C8 with an endpoint that always answers 500. -/
theorem C8_fatal_catalog_read_witness :
    listVariantsBatch (fun _ => ⟨false, 500, []⟩) 0 10 = ⟨[], 1, some 500⟩ ∧
    mainFullSync (fun _ => ⟨false, 500, []⟩)
      (fun _ => ⟨⟨200, none, none⟩, ⟨true, 200⟩⟩) 10 = ⟨[], 1⟩ := by
  have h := C8_fatal_catalog_read (fun _ => ⟨false, 500, []⟩) 9 rfl
  exact ⟨h.2.1, h.2.2 _⟩

/-! ## C9 -/

theorem entryEvents_count_fetch (env : EntryEnv) (e : Entry) (sku : String) :
    (entryEvents env e).count (Event.fetchStart sku) =
      (entryEvents env e).count (Event.fetchDone sku) := by
  rw [entryEvents]
  split
  · rfl
  · split
    · simp [List.count_cons, List.count_append]
    · simp [List.count_cons, List.count_append]

theorem entryEvents_count_write (env : EntryEnv) (e : Entry) (vid : Nat) :
    (entryEvents env e).count (Event.writeStart vid) =
      (entryEvents env e).count (Event.writeDone vid) := by
  rw [entryEvents]
  split
  · rfl
  · split
    · simp [List.count_cons, List.count_append]
    · simp [List.count_cons, List.count_append]

/-- C9: the run's event trace ends with the run-end event, both queues
report idle before it, and at the end every submitted marketplace fetch
and every submitted storefront write has a matching completion: the
start and done counts agree for every SKU and every variant id. -/
theorem C9_queues_drained (envOf : Entry → EntryEnv) (entries : List Entry) :
    (runTrace envOf entries).getLast? = some Event.runEnd ∧
    Event.mlQueueIdle ∈ runTrace envOf entries ∧
    Event.shopifyQueueIdle ∈ runTrace envOf entries ∧
    (∀ sku, (runTrace envOf entries).count (Event.fetchStart sku) =
      (runTrace envOf entries).count (Event.fetchDone sku)) ∧
    (∀ vid, (runTrace envOf entries).count (Event.writeStart vid) =
      (runTrace envOf entries).count (Event.writeDone vid)) := by
  have hcount : ∀ (a b : Event),
      (∀ env e, (entryEvents (envOf env) e).count a = (entryEvents (envOf env) e).count b) →
      (entries.flatMap (fun e => entryEvents (envOf e) e)).count a =
        (entries.flatMap (fun e => entryEvents (envOf e) e)).count b := by
    intro a b hone
    induction entries with
    | nil => rfl
    | cons e es ih => simp [List.count_append, ih, hone e]
  refine ⟨?_, ?_, ?_, ?_, ?_⟩
  · rw [runTrace, List.getLast?_append_cons]
    rfl
  · rw [runTrace]
    exact List.mem_append_right _ (by simp)
  · rw [runTrace]
    exact List.mem_append_right _ (by simp)
  · intro sku
    rw [runTrace]
    simp only [List.count_append]
    rw [hcount _ _ (fun env e => entryEvents_count_fetch (envOf env) e sku)]
    simp [List.count_cons]
  · intro vid
    rw [runTrace]
    simp only [List.count_append]
    rw [hcount _ _ (fun env e => entryEvents_count_write (envOf env) e vid)]
    simp [List.count_cons]

/-! ## C10 -/

theorem pushVariants_eq_pushVariants2 (limit : Int) (p : Product) :
    ∀ (vs : List Variant) (results : List Entry),
      pushVariants limit p vs results = pushVariants2 limit p vs results := by
  intro vs
  induction vs with
  | nil => intro results; rfl
  | cons v vs ih =>
    intro results
    rw [pushVariants, pushVariants2]
    by_cases h : limitReached limit (results ++ [⟨p, v⟩])
    · rw [if_pos h, if_pos h]
    · rw [if_neg h, if_neg h]
      exact ih _

theorem pushProducts_eq_pushProducts2 (limit : Int) :
    ∀ (ps : List Product) (results : List Entry),
      pushProducts limit ps results = pushProducts2 limit ps results := by
  intro ps
  induction ps with
  | nil => intro results; rfl
  | cons p ps ih =>
    intro results
    rw [pushProducts, pushProducts2, pushVariants_eq_pushVariants2]
    by_cases h : limitReached limit (pushVariants2 limit p p.variants results)
    · rw [if_pos h, if_pos h]
    · rw [if_neg h, if_neg h]
      exact ih _

theorem lvbGo_eq_lvbGo2 (fetchPage : Nat → ReadResp) (limit : Int) :
    ∀ (fuel sinceId : Nat) (results : List Entry) (reqs : Nat),
      lvbGo fetchPage limit fuel sinceId results reqs =
        lvbGo2 fetchPage limit fuel sinceId results reqs := by
  intro fuel
  induction fuel with
  | zero => intro sinceId results reqs; rfl
  | succ n ih =>
    intro sinceId results reqs
    rw [lvbGo, lvbGo2]
    by_cases hcond : limit ≤ 0 ∨ (results.length : Int) < limit
    · rw [if_pos hcond, if_pos hcond]
      rcases hres : shopifyGet (fetchPage sinceId) with st | products
      all_goals simp only [hres]
      by_cases hempty : products.isEmpty
      · rw [if_pos hempty, if_pos hempty]
      · rw [if_neg hempty, if_neg hempty, pushProducts_eq_pushProducts2]
        by_cases hshort : products.length < 250
        · rw [if_pos hshort, if_pos hshort]
        · rw [if_neg hshort, if_neg hshort]
          exact ih _ _ _
    · rw [if_neg hcond, if_neg hcond]

theorem fvbGo_eq_fvbGo2 (fetchPage : Nat → ReadResp) (t : String) :
    ∀ (fuel sinceId : Nat) (acc : List Entry),
      fvbGo fetchPage t fuel sinceId acc = fvbGo2 fetchPage t fuel sinceId acc := by
  intro fuel
  induction fuel with
  | zero => intro sinceId acc; rfl
  | succ n ih =>
    intro sinceId acc
    rw [fvbGo, fvbGo2]
    rcases hres : shopifyGet (fetchPage sinceId) with st | products
    all_goals simp only [hres]
    by_cases hempty : products.isEmpty
    · rw [if_pos hempty, if_pos hempty]
    · rw [if_neg hempty, if_neg hempty]
      by_cases hshort : products.length < 250
      · rw [if_pos hshort, if_pos hshort]
      · rw [if_neg hshort, if_neg hshort]
        exact ih _ _

/-- C10: the two source variants agree functionally on `needsUpdate`,
`fetchMlItem`, `listVariantsBatch` and `findVariantsBySku`: on every
input (and every endpoint and fuel bound for the paginated scans), the
first variant's function and the second variant's function return the
same result. -/
theorem C10_variants_equivalent :
    (∀ sp mp : String, needsUpdate sp mp = needsUpdate2 sp mp) ∧
    (∀ resp : MlResp, fetchMlItem resp = fetchMlItem2 resp) ∧
    (∀ (fetchPage : Nat → ReadResp) (limit : Int) (fuel : Nat),
      listVariantsBatch fetchPage limit fuel = listVariantsBatch2 fetchPage limit fuel) ∧
    (∀ (fetchPage : Nat → ReadResp) (t : String) (fuel : Nat),
      findVariantsBySku fetchPage t fuel = findVariantsBySku2 fetchPage t fuel) := by
  refine ⟨fun _ _ => rfl, fun _ => rfl, ?_, ?_⟩
  · intro fetchPage limit fuel
    exact lvbGo_eq_lvbGo2 fetchPage limit fuel 0 [] 0
  · intro fetchPage t fuel
    exact fvbGo_eq_fvbGo2 fetchPage t fuel 0 []

end Sync
